import Mathlib

/-!
Verification of the key-generation and options-factory subsystem of
eden-tanstack-query (packages/eden-tanstack-query/src).

The TypeScript source is shallowly embedded: JavaScript runtime values are
modelled by the inductive type `Value` (plain objects are insertion-ordered
association lists, as produced by `Object.keys` iteration), the TanStack
`skipToken` sentinel is the constructor `Value.vSkip` (a symbol, hence not a
plain object), and promises are modelled by their settled result values.
Caller-supplied fetch and mutate callbacks are abstract Lean functions; the
pass-through TanStack options (staleness, retry, ...) are not interpreted by
the subsystem and are not modelled, only the `eden.abortOnUnmount` flag that the
factories inspect.
-/

/-- A JavaScript runtime value as used by the key builder.  `vObj` keeps the
insertion order of `Object.keys`; `vSkip` is the TanStack `skipToken`
sentinel (a symbol, so `isObject` is false on it). -/
inductive Value where
  | vNull : Value
  | vUndefined : Value
  | vSkip : Value
  | vBool (b : Bool) : Value
  | vNum (n : Int) : Value
  | vStr (s : String) : Value
  | vArr (elems : List Value) : Value
  | vObj (fields : List (String × Value)) : Value

/-- Membership test of `DANGEROUS_KEYS = new Set(["__proto__", "constructor",
"prototype"])` from src/keys/queryKey.ts. -/
def dangerousKey (k : String) : Bool :=
  k = "__proto__" || k = "constructor" || k = "prototype"

/-- The `isObject` helper: `typeof value === "object" && value !== null &&
!Array.isArray(value)`, i.e. exactly the plain objects of the model. -/
def isObject : Value → Bool
  | .vObj _ => true
  | _ => false

/-- The `Array.isArray` test. -/
def isArray : Value → Bool
  | .vArr _ => true
  | _ => false

/-- Reference equality test against the `skipToken` sentinel
(`input === skipToken`). -/
def isSkip : Value → Bool
  | .vSkip => true
  | _ => false

/-- The `input !== undefined` test (negated). -/
def isUndefined : Value → Bool
  | .vUndefined => true
  | _ => false

/-- The `Object.keys(o).length > 0` test (negated), for a value known to be a
plain object. -/
def isEmptyObj : Value → Bool
  | .vObj [] => true
  | _ => false

mutual
/-- The `sanitizeInput` function of src/keys/queryKey.ts: non-objects pass
through (arrays element-wise), plain objects are rebuilt by iterating
`Object.keys` in order, skipping dangerous keys and recursing into the
values. -/
def sanitizeInput : Value → Value
  | .vArr xs => .vArr (sanitizeList xs)
  | .vObj fs => .vObj (sanitizeFields fs)
  | v => v

/-- Element-wise `value.map(sanitizeInput)` for arrays. -/
def sanitizeList : List Value → List Value
  | [] => []
  | x :: xs => sanitizeInput x :: sanitizeList xs

/-- The `for (const key of Object.keys(value))` loop of `sanitizeInput`. -/
def sanitizeFields : List (String × Value) → List (String × Value)
  | [] => []
  | (k, v) :: fs =>
      if dangerousKey k then sanitizeFields fs
      else (k, sanitizeInput v) :: sanitizeFields fs
end

/-- A path param set with its position in the path (src/keys/queryKey.ts,
`PositionedParam`). -/
structure PositionedParam where
  pathIndex : Nat
  params : List (String × Value)

/-- JavaScript property assignment `result[key] = value` on a plain object:
an existing key keeps its position and gets the new value, a fresh key is
appended. -/
def setField (k : String) (v : Value) : List (String × Value) → List (String × Value)
  | [] => [(k, v)]
  | p :: fs => if p.1 = k then (k, v) :: fs else p :: setField k v fs

/-- JavaScript property read on a plain object (first match; the lists built
by `setField` never contain a key twice). -/
def lookupField (k : String) : List (String × Value) → Option Value
  | [] => none
  | p :: fs => if p.1 = k then some p.2 else lookupField k fs

/-- The inner `for (const [key, value] of Object.entries(params))` loop of
`flattenPathParams`: write every non-dangerous field into the accumulator. -/
def writeParams (acc : List (String × Value)) : List (String × Value) → List (String × Value)
  | [] => acc
  | (k, v) :: rest =>
      writeParams (if dangerousKey k then acc else setField k v acc) rest

/-- The outer `for (const { params } of pathParams)` loop of
`flattenPathParams`. -/
def writeAll (acc : List (String × Value)) : List PositionedParam → List (String × Value)
  | [] => acc
  | pp :: rest => writeAll (writeParams acc pp.params) rest

/-- The `flattenPathParams` function of src/keys/queryKey.ts: merge all
positioned param maps in order (later entries overwrite), drop dangerous
keys, and return `undefined` when nothing remains. -/
def flattenPathParams : Option (List PositionedParam) → Option (List (String × Value))
  | none => none
  | some pps =>
      if pps.length = 0 then none
      else
        let result := writeAll [] pps
        if 0 < result.length then some result else none

/-- The `QueryType` union `"query" | "infinite" | "any"`. -/
inductive QueryType where
  | query : QueryType
  | infinite : QueryType
  | any : QueryType
deriving DecidableEq

/-- The `type === "infinite"` test. -/
def isInfinite : Option QueryType → Bool
  | some QueryType.infinite => true
  | _ => false

/-- The optional second element of a query key.  The source builds it as a
plain record whose fields are assigned only when defined; the structure
abstracts the record's field insertion order (consumers compare by value). -/
structure QueryKeyMeta where
  input : Option Value
  pathParams : Option (List (String × Value))
  type : Option QueryType

/-- `EdenQueryKey = [Path] | [Path, QueryKeyMeta]`. -/
inductive EdenQueryKey where
  | pathOnly (path : List String) : EdenQueryKey
  | withMeta (path : List String) (meta : QueryKeyMeta) : EdenQueryKey

/-- The `"cursor" in inputObj` membership test on a plain object. -/
def objHasKey (v : Value) (k : String) : Bool :=
  match v with
  | .vObj fs => match lookupField k fs with
      | some _ => true
      | none => false
  | _ => false

/-- Removal of one key, as performed by the rest-spread
`const { cursor: _, direction: __, ...rest } = inputObj` (remaining fields
keep their order). -/
def removeField (k : String) : List (String × Value) → List (String × Value)
  | [] => []
  | p :: fs => if p.1 = k then removeField k fs else p :: removeField k fs

/-- Key removal lifted to object values. -/
def objRemoveKey (v : Value) (k : String) : Value :=
  match v with
  | .vObj fs => .vObj (removeField k fs)
  | w => w

/-- The argument record of `getQueryKey` (src/keys/queryKey.ts,
`GetQueryKeyOptions`); an absent `input` is `Value.vUndefined`. -/
structure GetQueryKeyOptions where
  path : List String
  input : Value
  type : Option QueryType
  pathParams : Option (List PositionedParam)

/-- The `getQueryKey` function of src/keys/queryKey.ts. -/
def getQueryKey (opts : GetQueryKeyOptions) : EdenQueryKey :=
  let flatPathParams := flattenPathParams opts.pathParams
  if isSkip opts.input then
    match flatPathParams with
    | some fp => EdenQueryKey.withMeta opts.path ⟨none, some fp, none⟩
    | none => EdenQueryKey.pathOnly opts.path
  else
    let input := sanitizeInput opts.input
    if isInfinite opts.type && isObject input
        && (objHasKey input "cursor" || objHasKey input "direction") then
      let rest := objRemoveKey (objRemoveKey input "cursor") "direction"
      EdenQueryKey.withMeta opts.path
        ⟨if isEmptyObj rest then none else some rest, flatPathParams, some QueryType.infinite⟩
    else
      let metaInput := if isUndefined input then none else some input
      let metaType : Option QueryType :=
        match opts.type with
        | some QueryType.any => none
        | some t => some t
        | none => none
      if flatPathParams.isNone && metaInput.isNone && metaType.isNone then
        EdenQueryKey.pathOnly opts.path
      else
        EdenQueryKey.withMeta opts.path ⟨metaInput, flatPathParams, metaType⟩

/-- The argument record of `getMutationKey`. -/
structure GetMutationKeyOptions where
  path : List String

/-- The `getMutationKey` function of src/keys/queryKey.ts: `[opts.path]`. -/
def getMutationKey (opts : GetMutationKeyOptions) : List (List String) :=
  [opts.path]

/-- The execution context TanStack passes to a query function; only the
cancellation signal is inspected by the wrapper. -/
structure QueryContext (Sig : Type) where
  signal : Sig

/-- The `queryFn` field of the produced options: either the `skipToken`
sentinel or an async function of the query context. -/
inductive QueryFnField (TOutput Sig : Type) where
  | skipSentinel : QueryFnField TOutput Sig
  | fn (f : QueryContext Sig → TOutput) : QueryFnField TOutput Sig

/-- Arguments of `edenQueryOptions` (src/options/queryOptions.ts).  The
caller-supplied fetch callback takes the input and an optional abort signal;
`abortOnUnmount` models `opts?.eden?.abortOnUnmount` (`none` when `opts` or
the flag is absent). -/
structure EdenQueryOptionsArgs (TOutput Sig : Type) where
  path : List String
  input : Value
  pathParams : Option (List PositionedParam)
  fetch : Value → Option Sig → TOutput
  abortOnUnmount : Option Bool

/-- The behaviourally relevant fields of the object `edenQueryOptions`
returns: the computed key, the query function (or skip sentinel) and the
`eden.path` debug string.  Pass-through TanStack options are forwarded
uninterpreted and are not modelled. -/
structure EdenQueryOptionsOut (TOutput Sig : Type) where
  queryKey : EdenQueryKey
  queryFn : QueryFnField TOutput Sig
  edenPath : String

/-- The `edenQueryOptions` factory of src/options/queryOptions.ts: builds the
key with `type: "query"` (replacing a skip-token input by `undefined`), wraps
the fetch callback so that the context signal is forwarded only when
`eden.abortOnUnmount` is true, replaces the wrapper by the skip sentinel for
skip-token input, and records `path.join(".")`. -/
def edenQueryOptions {TOutput Sig : Type} (args : EdenQueryOptionsArgs TOutput Sig) :
    EdenQueryOptionsOut TOutput Sig :=
  let inputIsSkipToken := isSkip args.input
  let queryKey := getQueryKey
    ⟨args.path, if inputIsSkipToken then Value.vUndefined else args.input,
     some QueryType.query, args.pathParams⟩
  let queryFn : QueryContext Sig → TOutput := fun context =>
    let signal := if args.abortOnUnmount = some true then some context.signal else none
    args.fetch args.input signal
  ⟨queryKey,
   if inputIsSkipToken then QueryFnField.skipSentinel else QueryFnField.fn queryFn,
   String.intercalate "." args.path⟩

/-- The behaviourally relevant fields of the object `edenMutationOptions`
returns. -/
structure EdenMutationOptionsOut (TInput TOutput : Type) where
  mutationKey : List (List String)
  mutationFn : TInput → TOutput
  edenPath : String

/-- The `edenMutationOptions` factory of src/options/mutationOptions.ts: the
key is `getMutationKey({path})`, and `mutationFn` forwards its argument to
the caller's `mutate` (the async wrapper settles exactly as the wrapped
promise, modelled by returning the same result value). -/
def edenMutationOptions {TInput TOutput : Type} (path : List String)
    (mutate : TInput → TOutput) : EdenMutationOptionsOut TInput TOutput :=
  ⟨getMutationKey ⟨path⟩, fun input => mutate input, String.intercalate "." path⟩

/-- The object spread `{id: "1", ...b}` used by end-to-end scenario 3's
mutate callback: copy the own fields of `b` into the base record in order,
overwriting on collision. -/
def spreadFieldsAux (base : List (String × Value)) : List (String × Value) → List (String × Value)
  | [] => base
  | (k, v) :: fs => spreadFieldsAux (setField k v base) fs

/-- Spread of a value into a base record; non-objects contribute no own
enumerable fields here (only object inputs are exercised). -/
def objSpread (base : List (String × Value)) (b : Value) : Value :=
  match b with
  | .vObj fs => .vObj (spreadFieldsAux base fs)
  | _ => .vObj base

mutual
/-- Spec-side predicate: no plain-object subtree, at any depth, including
inside array elements, has a dangerous own key. -/
def noDangerousDeep : Value → Bool
  | .vArr xs => noDangerousDeepList xs
  | .vObj fs => noDangerousDeepFields fs
  | _ => true

/-- Array part of `noDangerousDeep`. -/
def noDangerousDeepList : List Value → Bool
  | [] => true
  | x :: xs => noDangerousDeep x && noDangerousDeepList xs

/-- Field part of `noDangerousDeep`. -/
def noDangerousDeepFields : List (String × Value) → Bool
  | [] => true
  | (k, v) :: fs => !dangerousKey k && noDangerousDeep v && noDangerousDeepFields fs
end

/-- Spec-side function: the last value bound to a key in an ordered entry
list ("later entries overwrite earlier ones"). -/
def lastBinding (k : String) : List (String × Value) → Option Value
  | [] => none
  | p :: fs =>
      match lastBinding k fs with
      | some w => some w
      | none => if p.1 = k then some p.2 else none

/-- Spec-side function: all param entries of a positioned-param sequence,
concatenated in order. -/
def joinParams : List PositionedParam → List (String × Value)
  | [] => []
  | pp :: rest => pp.params ++ joinParams rest

/-- Lookup through an optional flattened mapping (absent mapping has no
bindings). -/
def flatLookup (m : Option (List (String × Value))) (k : String) : Option Value :=
  match m with
  | none => none
  | some fs => lookupField k fs

/-- The fields of a plain object (empty for any other value). -/
def objFields : Value → List (String × Value)
  | .vObj fs => fs
  | _ => []

/-- The `meta.input` component of a key (absent for a one-element key). -/
def metaInputOf : EdenQueryKey → Option Value
  | .pathOnly _ => none
  | .withMeta _ m => m.input

/-- Discriminator: is the key a one-element `[path]` key? -/
def isPathOnly : EdenQueryKey → Bool
  | .pathOnly _ => true
  | .withMeta _ _ => false

/-- Spec-side well-formedness of a key (the amended invariant): a present
meta is non-empty, its `input` field is never the JavaScript `undefined`,
and its `pathParams` field is never an empty mapping. -/
def keyWellFormed : EdenQueryKey → Bool
  | .pathOnly _ => true
  | .withMeta _ m =>
      (m.input.isSome || m.pathParams.isSome || m.type.isSome)
      && (match m.input with
          | some v => !isUndefined v
          | none => true)
      && (match m.pathParams with
          | some [] => false
          | _ => true)

/-! ## Sanitizer lemmas -/

theorem sanitizeList_eq_map : ∀ xs, sanitizeList xs = xs.map sanitizeInput
  | [] => rfl
  | x :: xs => by rw [sanitizeList, List.map_cons, sanitizeList_eq_map xs]

mutual
theorem noDangerous_sanitizeInput : ∀ v, noDangerousDeep (sanitizeInput v) = true
  | .vNull => rfl
  | .vUndefined => rfl
  | .vSkip => rfl
  | .vBool _ => rfl
  | .vNum _ => rfl
  | .vStr _ => rfl
  | .vArr xs => by
      rw [sanitizeInput, noDangerousDeep]
      exact noDangerous_sanitizeList xs
  | .vObj fs => by
      rw [sanitizeInput, noDangerousDeep]
      exact noDangerous_sanitizeFields fs

theorem noDangerous_sanitizeList : ∀ xs, noDangerousDeepList (sanitizeList xs) = true
  | [] => rfl
  | x :: xs => by
      rw [sanitizeList, noDangerousDeepList]
      simp [noDangerous_sanitizeInput x, noDangerous_sanitizeList xs]

theorem noDangerous_sanitizeFields : ∀ fs, noDangerousDeepFields (sanitizeFields fs) = true
  | [] => rfl
  | (k, v) :: fs => by
      by_cases h : dangerousKey k = true
      · simp [sanitizeFields, h, noDangerous_sanitizeFields fs]
      · simp [sanitizeFields, h, noDangerousDeepFields,
          noDangerous_sanitizeInput v, noDangerous_sanitizeFields fs]
end

theorem lookupField_sanitizeFields : ∀ (fs : List (String × Value)) (k : String),
    lookupField k (sanitizeFields fs)
      = if dangerousKey k = true then none else (lookupField k fs).map sanitizeInput
  | [], k => by simp [sanitizeFields, lookupField]
  | (k', v) :: fs, k => by
      rw [sanitizeFields]
      cases hk' : dangerousKey k'
      · rw [if_neg (by decide)]
        by_cases he : k' = k
        · subst he
          simp [lookupField, hk']
        · simp [lookupField, he, lookupField_sanitizeFields fs k]
      · rw [if_pos rfl, lookupField_sanitizeFields fs k]
        by_cases he : k' = k
        · subst he
          simp [lookupField, hk']
        · simp [lookupField, he]

theorem keys_sanitizeFields : ∀ fs : List (String × Value),
    (sanitizeFields fs).map Prod.fst = (fs.map Prod.fst).filter (fun x => !dangerousKey x)
  | [] => rfl
  | (k, _) :: fs => by
      by_cases h : dangerousKey k = true
      · simp [sanitizeFields, h, keys_sanitizeFields fs]
      · simp [sanitizeFields, h, keys_sanitizeFields fs]

mutual
theorem sanitizeInput_idem : ∀ v, sanitizeInput (sanitizeInput v) = sanitizeInput v
  | .vNull => rfl
  | .vUndefined => rfl
  | .vSkip => rfl
  | .vBool _ => rfl
  | .vNum _ => rfl
  | .vStr _ => rfl
  | .vArr xs => by simp [sanitizeInput, sanitizeList_idem xs]
  | .vObj fs => by simp [sanitizeInput, sanitizeFields_idem fs]

theorem sanitizeList_idem : ∀ xs, sanitizeList (sanitizeList xs) = sanitizeList xs
  | [] => rfl
  | x :: xs => by simp [sanitizeList, sanitizeInput_idem x, sanitizeList_idem xs]

theorem sanitizeFields_idem : ∀ fs, sanitizeFields (sanitizeFields fs) = sanitizeFields fs
  | [] => rfl
  | (k, v) :: fs => by
      by_cases h : dangerousKey k = true
      · simp [sanitizeFields, h, sanitizeFields_idem fs]
      · simp [sanitizeFields, h, sanitizeInput_idem v, sanitizeFields_idem fs]
end

/-- C6: the sanitizer meets its contract.  Conjuncts: (1) the result has no
dangerous own key in any plain-object subtree at any depth, including inside
array elements; (2) arrays are traversed element-wise; (3) every
non-dangerous key of a plain object is preserved with its recursively
sanitized value, and every dangerous key is removed; (4) the key list of a
sanitized object is exactly the original key list with the dangerous keys
filtered out, in order; (5-10) non-object, non-array values are returned
unchanged.  The function is total by construction, so it never throws. -/
theorem claim_C6 :
    (∀ v, noDangerousDeep (sanitizeInput v) = true)
    ∧ (∀ xs, sanitizeInput (Value.vArr xs) = Value.vArr (xs.map sanitizeInput))
    ∧ (∀ fs k, lookupField k (objFields (sanitizeInput (Value.vObj fs)))
        = if dangerousKey k = true then none else (lookupField k fs).map sanitizeInput)
    ∧ (∀ fs, (objFields (sanitizeInput (Value.vObj fs))).map Prod.fst
        = (fs.map Prod.fst).filter (fun x => !dangerousKey x))
    ∧ sanitizeInput Value.vNull = Value.vNull
    ∧ sanitizeInput Value.vUndefined = Value.vUndefined
    ∧ sanitizeInput Value.vSkip = Value.vSkip
    ∧ (∀ b, sanitizeInput (Value.vBool b) = Value.vBool b)
    ∧ (∀ n, sanitizeInput (Value.vNum n) = Value.vNum n)
    ∧ (∀ s, sanitizeInput (Value.vStr s) = Value.vStr s) :=
  ⟨noDangerous_sanitizeInput,
   fun xs => by rw [sanitizeInput, sanitizeList_eq_map],
   fun fs k => lookupField_sanitizeFields fs k,
   fun fs => keys_sanitizeFields fs,
   rfl, rfl, rfl, fun _ => rfl, fun _ => rfl, fun _ => rfl⟩

/-- C7: the sanitizer is idempotent: sanitizing twice equals sanitizing
once, for every value. -/
theorem claim_C7 : ∀ v, sanitizeInput (sanitizeInput v) = sanitizeInput v :=
  sanitizeInput_idem

/-! ## Path-parameter flattening lemmas -/

theorem lookupField_setField (k k' : String) (v : Value) : ∀ fs,
    lookupField k' (setField k v fs) = if k' = k then some v else lookupField k' fs := by
  intro fs
  induction fs with
  | nil =>
      by_cases h : k' = k
      · subst h
        simp [setField, lookupField]
      · have h2 : ¬(k = k') := fun he => h he.symm
        simp [setField, lookupField, h, h2]
  | cons p fs ih =>
      obtain ⟨pk, pv⟩ := p
      rw [setField]
      by_cases hp : pk = k
      · rw [if_pos hp]
        subst hp
        by_cases h : k' = pk
        · subst h
          simp [lookupField]
        · have h2 : ¬(pk = k') := fun he => h he.symm
          simp [lookupField, h, h2]
      · rw [if_neg hp, lookupField, ih]
        by_cases h : k' = k
        · subst h
          simp [lookupField, hp]
        · simp [lookupField, h]

theorem lastBinding_append (k : String) : ∀ (es1 es2 : List (String × Value)),
    lastBinding k (es1 ++ es2)
      = match lastBinding k es2 with
        | some w => some w
        | none => lastBinding k es1 := by
  intro es1 es2
  induction es1 with
  | nil =>
      simp only [List.nil_append]
      cases lastBinding k es2 <;> simp [lastBinding]
  | cons p es1 ih =>
      rw [List.cons_append, lastBinding, ih, lastBinding]
      cases lastBinding k es2 <;> cases lastBinding k es1 <;> rfl

theorem lookupField_writeParams (k : String) : ∀ (es acc : List (String × Value)),
    lookupField k (writeParams acc es)
      = if dangerousKey k = true then lookupField k acc
        else match lastBinding k es with
          | some w => some w
          | none => lookupField k acc := by
  intro es
  induction es with
  | nil =>
      intro acc
      simp only [writeParams, lastBinding]
      split_ifs <;> rfl
  | cons p es ih =>
      intro acc
      obtain ⟨pk, pv⟩ := p
      rw [writeParams, ih]
      by_cases hk : dangerousKey k = true
      · rw [if_pos hk, if_pos hk]
        by_cases hpk : dangerousKey pk = true
        · rw [if_pos hpk]
        · rw [if_neg hpk, lookupField_setField]
          rw [if_neg (fun he : k = pk => hpk (he ▸ hk))]
      · rw [if_neg hk, if_neg hk, lastBinding]
        cases hlb : lastBinding k es
        · by_cases hpkk : pk = k
          · subst hpkk
            rw [if_neg hk, lookupField_setField, if_pos rfl]
            simp
          · by_cases hpk : dangerousKey pk = true
            · rw [if_pos hpk]
              simp [hpkk]
            · rw [if_neg hpk, lookupField_setField,
                if_neg (fun he : k = pk => hpkk he.symm)]
              simp [hpkk]
        · rfl

theorem lookupField_writeAll (k : String) : ∀ (pps : List PositionedParam) (acc : List (String × Value)),
    lookupField k (writeAll acc pps)
      = if dangerousKey k = true then lookupField k acc
        else match lastBinding k (joinParams pps) with
          | some w => some w
          | none => lookupField k acc := by
  intro pps
  induction pps with
  | nil =>
      intro acc
      simp only [writeAll, joinParams, lastBinding]
      split_ifs <;> rfl
  | cons pp pps ih =>
      intro acc
      rw [writeAll, ih, joinParams, lastBinding_append]
      by_cases hk : dangerousKey k = true
      · rw [if_pos hk, if_pos hk, lookupField_writeParams, if_pos hk]
      · rw [if_neg hk, if_neg hk]
        cases hj : lastBinding k (joinParams pps)
        · rw [lookupField_writeParams, if_neg hk]
        · rfl

theorem flatLookup_flattenPathParams : ∀ (pps : List PositionedParam) (k : String),
    flatLookup (flattenPathParams (some pps)) k = lookupField k (writeAll [] pps) := by
  intro pps k
  simp only [flattenPathParams]
  by_cases hl : pps.length = 0
  · rw [if_pos hl]
    have h0 : pps = [] := List.length_eq_zero.mp hl
    subst h0
    rfl
  · rw [if_neg hl]
    by_cases hr : 0 < (writeAll [] pps).length
    · rw [if_pos hr]
      rfl
    · rw [if_neg hr]
      have h0 : writeAll [] pps = [] :=
        List.length_eq_zero.mp (Nat.eq_zero_of_not_pos hr)
      rw [h0]
      rfl

theorem flatLookup_eq_lastBinding : ∀ (pps : List PositionedParam) (k : String),
    flatLookup (flattenPathParams (some pps)) k
      = if dangerousKey k = true then none else lastBinding k (joinParams pps) := by
  intro pps k
  rw [flatLookup_flattenPathParams, lookupField_writeAll]
  by_cases hk : dangerousKey k = true
  · rw [if_pos hk, if_pos hk]
    rfl
  · rw [if_neg hk, if_neg hk]
    cases lastBinding k (joinParams pps) <;> rfl

theorem flatten_isNone : ∀ pps : List PositionedParam,
    (flattenPathParams (some pps)).isNone = (writeAll [] pps).isEmpty := by
  intro pps
  simp only [flattenPathParams]
  by_cases hl : pps.length = 0
  · rw [if_pos hl]
    have h0 : pps = [] := List.length_eq_zero.mp hl
    subst h0
    rfl
  · rw [if_neg hl]
    by_cases hr : 0 < (writeAll [] pps).length
    · rw [if_pos hr]
      cases hwa : writeAll [] pps with
      | nil => rw [hwa] at hr; simp at hr
      | cons a l => rfl
    · rw [if_neg hr]
      have h0 : writeAll [] pps = [] :=
        List.length_eq_zero.mp (Nat.eq_zero_of_not_pos hr)
      rw [h0]
      rfl

theorem flattenPathParams_pos_length : ∀ (pp : Option (List PositionedParam)) (fs : List (String × Value)),
    flattenPathParams pp = some fs → 0 < fs.length := by
  intro pp fs h
  cases pp with
  | none => exact Option.noConfusion h
  | some pps =>
      simp only [flattenPathParams] at h
      by_cases hl : pps.length = 0
      · rw [if_pos hl] at h
        exact Option.noConfusion h
      · rw [if_neg hl] at h
        by_cases hr : 0 < (writeAll [] pps).length
        · rw [if_pos hr] at h
          injection h with h1
          rw [← h1]
          exact hr
        · rw [if_neg hr] at h
          exact Option.noConfusion h

/-- C5: the flattened path-parameter mapping is characterized by: (1) looking
up any key in it yields nothing for the three dangerous names, and otherwise
the value of the LAST entry binding that name across the positioned-param
sequence taken in order (later entries overwrite earlier ones); (2) the
mapping is reported absent exactly when the written accumulator ends empty;
(3) in particular the sequence [{pathIndex:0,params:{id:"1"}},
{pathIndex:1,params:{id:"2"}}] flattens to {id:"2"}. -/
theorem claim_C5 :
    (∀ (pps : List PositionedParam) (k : String),
      flatLookup (flattenPathParams (some pps)) k
        = if dangerousKey k = true then none else lastBinding k (joinParams pps))
    ∧ (∀ pps : List PositionedParam,
        (flattenPathParams (some pps)).isNone = (writeAll [] pps).isEmpty)
    ∧ flattenPathParams (some [⟨0, [("id", Value.vStr "1")]⟩, ⟨1, [("id", Value.vStr "2")]⟩])
        = some [("id", Value.vStr "2")] :=
  ⟨flatLookup_eq_lastBinding, flatten_isNone, rfl⟩

/-! ## Query-key lemmas -/

theorem isUndefined_sanitizeInput : ∀ v, isUndefined (sanitizeInput v) = isUndefined v := by
  intro v
  cases v <;> rfl

theorem isObject_sanitizeInput : ∀ v, isObject (sanitizeInput v) = isObject v := by
  intro v
  cases v <;> rfl

theorem isUndefined_objRemoveKey : ∀ (v : Value) (k : String),
    isUndefined (objRemoveKey v k) = isUndefined v := by
  intro v k
  cases v <;> rfl

theorem isObject_not_undefined : ∀ v, isObject v = true → isUndefined v = false := by
  intro v h
  cases v <;> simp_all [isObject, isUndefined]

theorem objHasKey_sanitizeObj : ∀ (fs : List (String × Value)) (k : String),
    dangerousKey k = false →
    objHasKey (sanitizeInput (Value.vObj fs)) k = objHasKey (Value.vObj fs) k := by
  intro fs k hk
  rw [sanitizeInput]
  simp only [objHasKey]
  rw [lookupField_sanitizeFields, if_neg (by simp [hk])]
  cases lookupField k fs <;> rfl

/-! ## Claims about the key builder -/

/-- C1 (amended): for the call edenQueryOptions with path ["api","hello"],
input undefined and fetch resolving to "world", the returned queryKey is
[["api","hello"], {type:"query"}] (the factory always passes type "query" to
the key builder, which records it in the meta), eden.path is "api.hello",
and the produced queryFn resolves to "world". -/
theorem claim_C1_amended :
    (@edenQueryOptions String Unit
        ⟨["api", "hello"], Value.vUndefined, none, fun _ _ => "world", none⟩).queryKey
      = EdenQueryKey.withMeta ["api", "hello"] ⟨none, none, some QueryType.query⟩
    ∧ (@edenQueryOptions String Unit
        ⟨["api", "hello"], Value.vUndefined, none, fun _ _ => "world", none⟩).edenPath
      = "api.hello"
    ∧ (@edenQueryOptions String Unit
        ⟨["api", "hello"], Value.vUndefined, none, fun _ _ => "world", none⟩).queryFn
      = QueryFnField.fn (fun _ => "world") :=
  ⟨rfl, rfl, rfl⟩

/-- C1 counterexample: the claim asserts that the queryKey of this call is
the one-element key [["api","hello"]]; in fact the key is a two-element key
(its meta carries type:"query"), so the claim is false at this input. -/
theorem claim_C1_counterexample :
    isPathOnly (@edenQueryOptions String Unit
        ⟨["api", "hello"], Value.vUndefined, none, fun _ _ => "world", none⟩).queryKey
      = false :=
  rfl

/-- C2 (amended): for every path, input, pathParams and type, getQueryKey
returns [path] alone or [path, meta] where meta is non-empty, its input
field is never the JavaScript undefined value, and its pathParams field is
never an empty mapping.  (The original claim additionally forbade an
empty-object input field; that part is refuted by the counterexample: a
sanitized empty-object input is stored as is.) -/
theorem claim_C2_amended : ∀ opts : GetQueryKeyOptions,
    keyWellFormed (getQueryKey opts) = true := by
  intro opts
  obtain ⟨path, input, type, pps⟩ := opts
  simp only [getQueryKey]
  by_cases hskip : isSkip input = true
  · rw [if_pos hskip]
    cases hf : flattenPathParams pps with
    | none => rfl
    | some fp =>
        have hlen := flattenPathParams_pos_length pps fp hf
        cases fp with
        | nil => simp at hlen
        | cons a l => rfl
  · rw [if_neg hskip]
    by_cases hc : (isInfinite type && isObject (sanitizeInput input)
        && (objHasKey (sanitizeInput input) "cursor"
            || objHasKey (sanitizeInput input) "direction")) = true
    · rw [if_pos hc]
      have hobj : isObject (sanitizeInput input) = true := by
        have hc2 := hc
        simp only [Bool.and_eq_true] at hc2
        exact hc2.1.2
      have hrest : isUndefined (objRemoveKey
          (objRemoveKey (sanitizeInput input) "cursor") "direction") = false := by
        rw [isUndefined_objRemoveKey, isUndefined_objRemoveKey]
        exact isObject_not_undefined _ hobj
      simp only [keyWellFormed]
      cases he : isEmptyObj (objRemoveKey
          (objRemoveKey (sanitizeInput input) "cursor") "direction")
      · cases hf : flattenPathParams pps with
        | none => simp [hrest]
        | some fp =>
            have hlen := flattenPathParams_pos_length pps fp hf
            cases fp with
            | nil => simp at hlen
            | cons a l => simp [hrest]
      · cases hf : flattenPathParams pps with
        | none => simp
        | some fp =>
            have hlen := flattenPathParams_pos_length pps fp hf
            cases fp with
            | nil => simp at hlen
            | cons a l => simp
    · rw [if_neg hc]
      by_cases hu : isUndefined (sanitizeInput input) = true
      · rw [if_pos hu]
        cases hf : flattenPathParams pps with
        | none =>
            cases type with
            | none => rfl
            | some t => cases t <;> rfl
        | some fp =>
            have hlen := flattenPathParams_pos_length pps fp hf
            cases fp with
            | nil => simp at hlen
            | cons a l =>
                cases type with
                | none => rfl
                | some t => cases t <;> rfl
      · rw [if_neg hu]
        have hu2 : isUndefined (sanitizeInput input) = false :=
          Bool.not_eq_true _ ▸ hu
        cases hf : flattenPathParams pps with
        | none =>
            cases type with
            | none => simp [keyWellFormed, hu2]
            | some t => cases t <;> simp [keyWellFormed, hu2]
        | some fp =>
            have hlen := flattenPathParams_pos_length pps fp hf
            cases fp with
            | nil => simp at hlen
            | cons a l =>
                cases type with
                | none => simp [keyWellFormed, hu2]
                | some t => cases t <;> simp [keyWellFormed, hu2]

/-- C2 counterexample: with the empty object as input, the key's meta holds
the empty-object input field {} — refuting the part of the claim that says a
meta never contains an empty-object field. -/
theorem claim_C2_counterexample :
    metaInputOf (getQueryKey ⟨["a"], Value.vObj [], none, none⟩)
      = some (Value.vObj []) :=
  rfl

/-- C3 (amended): for every path, pathParams, and plain-object input I that
contains a cursor or direction field, getQueryKey with type "infinite"
places the SANITIZED input minus those two fields into the key's meta.input
(omitting meta.input entirely if nothing remains) and always includes
type:"infinite" in the meta.  (The original claim said "I minus those two
fields"; sanitization also removes dangerous keys from I before the
stripping, see the counterexample.) -/
theorem claim_C3_amended : ∀ (path : List String) (pps : Option (List PositionedParam))
    (fields : List (String × Value)),
    (objHasKey (Value.vObj fields) "cursor"
      || objHasKey (Value.vObj fields) "direction") = true →
    getQueryKey ⟨path, Value.vObj fields, some QueryType.infinite, pps⟩
      = EdenQueryKey.withMeta path
          ⟨(if isEmptyObj (objRemoveKey (objRemoveKey
                (sanitizeInput (Value.vObj fields)) "cursor") "direction") = true then none
            else some (objRemoveKey (objRemoveKey
                (sanitizeInput (Value.vObj fields)) "cursor") "direction")),
           flattenPathParams pps, some QueryType.infinite⟩ := by
  intro path pps fields h
  have hcur : (objHasKey (sanitizeInput (Value.vObj fields)) "cursor"
      || objHasKey (sanitizeInput (Value.vObj fields)) "direction") = true := by
    rw [objHasKey_sanitizeObj fields "cursor" (by decide),
      objHasKey_sanitizeObj fields "direction" (by decide)]
    exact h
  have hcond : (isInfinite (some QueryType.infinite)
      && isObject (sanitizeInput (Value.vObj fields))
      && (objHasKey (sanitizeInput (Value.vObj fields)) "cursor"
          || objHasKey (sanitizeInput (Value.vObj fields)) "direction")) = true := by
    rw [isObject_sanitizeInput]
    simp [isInfinite, isObject, hcur]
  simp only [getQueryKey]
  rw [if_neg (by simp [isSkip])]
  rw [if_pos hcond]

/-- C3 witness: the amended theorem applied to the spec's concrete example:
path ["posts","get"], input {limit:10, cursor:"abc"}, no pathParams, type
"infinite" yields [["posts","get"], {input:{limit:10}, type:"infinite"}]. -/
theorem claim_C3_witness :
    (objHasKey (Value.vObj [("limit", Value.vNum 10), ("cursor", Value.vStr "abc")]) "cursor"
      || objHasKey (Value.vObj [("limit", Value.vNum 10), ("cursor", Value.vStr "abc")]) "direction")
      = true
    ∧ getQueryKey ⟨["posts", "get"],
        Value.vObj [("limit", Value.vNum 10), ("cursor", Value.vStr "abc")],
        some QueryType.infinite, none⟩
      = EdenQueryKey.withMeta ["posts", "get"]
          ⟨some (Value.vObj [("limit", Value.vNum 10)]), none, some QueryType.infinite⟩ :=
  ⟨rfl,
   claim_C3_amended ["posts", "get"] none
     [("limit", Value.vNum 10), ("cursor", Value.vStr "abc")] rfl⟩

/-- C3 counterexample: for input {constructor:1, cursor:"a"} the claim as
stated predicts meta.input = {constructor:1} (the input minus cursor and
direction, which is non-empty); the code instead sanitizes first, so nothing
remains and the key carries no input at all. -/
theorem claim_C3_counterexample :
    getQueryKey ⟨["p"],
        Value.vObj [("constructor", Value.vNum 1), ("cursor", Value.vStr "a")],
        some QueryType.infinite, none⟩
      = EdenQueryKey.withMeta ["p"] ⟨none, none, some QueryType.infinite⟩
    ∧ (metaInputOf (getQueryKey ⟨["p"],
        Value.vObj [("constructor", Value.vNum 1), ("cursor", Value.vStr "a")],
        some QueryType.infinite, none⟩)).isSome = false :=
  ⟨rfl, rfl⟩

/-- C4: for every path, pathParams and type, when the input is the skip
sentinel the key is [path] if the flattened pathParams mapping is absent
(i.e. empty), and [path, {pathParams: m}] with no input and no type field
otherwise; the type argument is never reflected in the key. -/
theorem claim_C4 : ∀ (path : List String) (type : Option QueryType)
    (pps : Option (List PositionedParam)),
    getQueryKey ⟨path, Value.vSkip, type, pps⟩
      = match flattenPathParams pps with
        | none => EdenQueryKey.pathOnly path
        | some m => EdenQueryKey.withMeta path ⟨none, some m, none⟩ := by
  intro path type pps
  simp only [getQueryKey, isSkip]
  rw [if_pos trivial]
  cases flattenPathParams pps <;> rfl

/-! ## Claims about the options factories -/

/-- C8: for every non-skip input, the produced queryFn calls the provided
fetch with the context's cancellation signal as second argument if and only
if eden.abortOnUnmount is true; when the flag is absent or false, fetch is
called with undefined (none) as second argument. -/
theorem claim_C8 : ∀ (TOutput Sig : Type) (path : List String) (input : Value)
    (pps : Option (List PositionedParam)) (fetchFn : Value → Option Sig → TOutput)
    (abort : Option Bool),
    isSkip input = false →
    ((abort = some true →
      (@edenQueryOptions TOutput Sig ⟨path, input, pps, fetchFn, abort⟩).queryFn
        = QueryFnField.fn (fun c => fetchFn input (some c.signal)))
     ∧ ((abort = none ∨ abort = some false) →
      (@edenQueryOptions TOutput Sig ⟨path, input, pps, fetchFn, abort⟩).queryFn
        = QueryFnField.fn (fun _ => fetchFn input none))) := by
  intro TOutput Sig path input pps fetchFn abort hskip
  constructor
  · intro ha
    subst ha
    simp [edenQueryOptions, hskip]
  · intro ha
    rcases ha with ha | ha <;> subst ha <;> simp [edenQueryOptions, hskip]

/-- C8 witness: with input 1 and a fetch returning its signal argument, the
flag true produces a queryFn returning the context signal, and the absent
flag produces a queryFn returning none. -/
theorem claim_C8_witness :
    isSkip (Value.vNum 1) = false
    ∧ (@edenQueryOptions (Option Nat) Nat
        ⟨["r"], Value.vNum 1, none, fun _ s => s, some true⟩).queryFn
      = QueryFnField.fn (fun c => some c.signal)
    ∧ (@edenQueryOptions (Option Nat) Nat
        ⟨["r"], Value.vNum 1, none, fun _ s => s, none⟩).queryFn
      = QueryFnField.fn (fun _ => none) :=
  ⟨rfl,
   (claim_C8 (Option Nat) Nat ["r"] (Value.vNum 1) none (fun _ s => s) (some true) rfl).1 rfl,
   (claim_C8 (Option Nat) Nat ["r"] (Value.vNum 1) none (fun _ s => s) none rfl).2 (Or.inl rfl)⟩

/-- C9: for every path, the mutation key produced by getMutationKey and
embedded by edenMutationOptions is exactly [path] regardless of any input,
and the produced mutationFn forwards its single argument to the provided
mutate unchanged and settles exactly as mutate's promise does (modelled by
returning the same result).  In particular the factory applied to path
["users","post"] and the spread-mutate of scenario 3 yields mutationKey
[["users","post"]] and mutationFn({name:"J"}) = {id:"1", name:"J"}. -/
theorem claim_C9 :
    (∀ (TInput TOutput : Type) (path : List String) (mutate : TInput → TOutput),
      (edenMutationOptions path mutate).mutationKey = [path]
      ∧ getMutationKey ⟨path⟩ = [path]
      ∧ ∀ input, (edenMutationOptions path mutate).mutationFn input = mutate input)
    ∧ (edenMutationOptions ["users", "post"]
        (fun b => objSpread [("id", Value.vStr "1")] b)).mutationKey
      = [["users", "post"]]
    ∧ (edenMutationOptions ["users", "post"]
        (fun b => objSpread [("id", Value.vStr "1")] b)).mutationFn
        (Value.vObj [("name", Value.vStr "J")])
      = Value.vObj [("id", Value.vStr "1"), ("name", Value.vStr "J")] :=
  ⟨fun _ _ _ _ => ⟨rfl, rfl, fun _ => rfl⟩, rfl, rfl⟩

/-- C10: for every non-skip input, the produced queryFn invokes the provided
fetch with the ORIGINAL input value, not the sanitized copy; the sanitized
copy is what is placed in the queryKey's meta.input (whenever the input is
not undefined). -/
theorem claim_C10 : ∀ (TOutput Sig : Type) (path : List String) (input : Value)
    (pps : Option (List PositionedParam)) (fetchFn : Value → Option Sig → TOutput)
    (abort : Option Bool),
    isSkip input = false →
    ((@edenQueryOptions TOutput Sig ⟨path, input, pps, fetchFn, abort⟩).queryFn
      = QueryFnField.fn (fun c =>
          fetchFn input (if abort = some true then some c.signal else none))
     ∧ (isUndefined input = false →
      metaInputOf (@edenQueryOptions TOutput Sig ⟨path, input, pps, fetchFn, abort⟩).queryKey
        = some (sanitizeInput input))) := by
  intro TOutput Sig path input pps fetchFn abort hskip
  constructor
  · simp [edenQueryOptions, hskip]
  · intro hu
    have hu2 : isUndefined (sanitizeInput input) = false := by
      rw [isUndefined_sanitizeInput]
      exact hu
    simp only [edenQueryOptions, hskip, Bool.false_eq_true, if_neg]
    simp only [getQueryKey]
    rw [if_neg (by simp [hskip])]
    rw [if_neg (by simp [isInfinite])]
    rw [if_neg (by simp [hu2])]
    cases hf : flattenPathParams pps <;> simp [metaInputOf, hu2]

/-- C10 witness: an input carrying the dangerous key __proto__ reaches fetch
intact (the queryFn returns the original input), while the queryKey's
meta.input only holds the sanitized copy {a:2}. -/
theorem claim_C10_witness :
    (@edenQueryOptions (Value × Option Unit) Unit
        ⟨["r"], Value.vObj [("__proto__", Value.vNum 1), ("a", Value.vNum 2)], none,
         fun i s => (i, s), none⟩).queryFn
      = QueryFnField.fn (fun _ =>
          (Value.vObj [("__proto__", Value.vNum 1), ("a", Value.vNum 2)], none))
    ∧ metaInputOf (@edenQueryOptions (Value × Option Unit) Unit
        ⟨["r"], Value.vObj [("__proto__", Value.vNum 1), ("a", Value.vNum 2)], none,
         fun i s => (i, s), none⟩).queryKey
      = some (Value.vObj [("a", Value.vNum 2)]) :=
  have h := claim_C10 (Value × Option Unit) Unit ["r"]
    (Value.vObj [("__proto__", Value.vNum 1), ("a", Value.vNum 2)]) none
    (fun i s => (i, s)) none rfl
  ⟨h.1, h.2 rfl⟩
